import Mathlib

/-!
Verification development for the agno agent-orchestration SDK.

Part 1 embeds `libs/agno/agno/utils/json_schema.py` (a reflection-to-JSON-schema
utility) as executable Lean functions over a JSON value type, with Python's
exception behaviour made explicit through `Except`.

Part 2 models the run-event streaming state machine and the session store
adapter.  The implementation of those components is not part of the supplied
sources (only their integration tests are), so the definitions there are
modelled from the specification document and are marked as such.
-/

namespace Agno.Schema

/-- JSON values, the shape of the dictionaries `json_schema.py` manipulates.
Objects are association lists in insertion order, mirroring Python dicts. -/
inductive Json where
  | null
  | bool (b : Bool)
  | num (n : Int)
  | str (s : String)
  | arr (xs : List Json)
  | obj (kvs : List (String × Json))

/-- Python's `value == k` for a string literal `k`: true exactly when the
value is that string. -/
def Json.eqStr (j : Json) (k : String) : Bool :=
  match j with
  | .str s => s = k
  | _ => false

/-- First binding of key `k` in an association list (Python dict lookup). -/
def lookupKey (kvs : List (String × Json)) (k : String) : Option Json :=
  match kvs.find? (fun kv => kv.1 = k) with
  | some kv => some kv.2
  | none => none

/-- Python dict assignment `d[k] = v`: replace in place when the key exists,
append otherwise. -/
def dictSet (kvs : List (String × Json)) (k : String) (v : Json) :
    List (String × Json) :=
  if kvs.any (fun kv => kv.1 = k) then
    kvs.map (fun kv => if kv.1 = k then (k, v) else kv)
  else kvs ++ [(k, v)]

/-- Python `del d[k]` / `d.pop(k)` on a dict. -/
def dictErase (kvs : List (String × Json)) (k : String) : List (String × Json) :=
  kvs.filter (fun kv => kv.1 ≠ k)

/-- Whether a JSON value is an object carrying key `k` at top level. -/
def jsonHasKey (j : Json) (k : String) : Bool :=
  match j with
  | .obj kvs => kvs.any (fun kv => kv.1 = k)
  | _ => false

/-- Python's `k in x` for a string key `k`: key membership for dicts, element
membership for lists, substring test for strings, `TypeError` otherwise. -/
def pyContains (j : Json) (k : String) : Except String Bool :=
  match j with
  | .obj kvs => .ok (kvs.any (fun kv => kv.1 = k))
  | .arr xs => .ok (xs.any (fun x => x.eqStr k))
  | .str s => .ok (decide (k.toList <:+: s.toList))
  | _ => .error "TypeError"

/-- Python's `del x[k]` for a string key: only dicts support it. -/
def pyDelKey (j : Json) (k : String) : Except String Json :=
  match j with
  | .obj kvs => .ok (.obj (dictErase kvs k))
  | _ => .error "TypeError"

/-- Python's `x[k]` for a string key: dict lookup (`KeyError` when absent),
`TypeError` on every other value. -/
def pyGetItem (j : Json) (k : String) : Except String Json :=
  match j with
  | .obj kvs =>
    match lookupKey kvs k with
    | some v => .ok v
    | none => .error "KeyError"
  | _ => .error "TypeError"

/-- The constant fallback schema `{"type": "object"}` used by `resolve_ref`. -/
def typeObjectJson : Json := .obj [("type", .str "object")]

/-- Whether the first character list is a prefix of the second. -/
def startsWithChars : List Char → List Char → Bool
  | [], _ => true
  | _ :: _, [] => false
  | p :: ps, c :: cs => p = c && startsWithChars ps cs

/-- Python's `s.startswith(pat)`, computed over the character lists. -/
def pyStartsWith (s pat : String) : Bool :=
  startsWithChars pat.toList s.toList

/-- Split a character list at every occurrence of the separator, keeping empty
groups, as Python's `str.split` with an explicit separator does. -/
def splitChars (sep : Char) : List Char → List (List Char)
  | [] => [[]]
  | c :: rest =>
    let r := splitChars sep rest
    if c = sep then [] :: r
    else
      match r with
      | g :: gs => (c :: g) :: gs
      | [] => [[c]]

/-- Python's `s.split("/")`, computed over the character lists. -/
def pySplitSlash (s : String) : List String :=
  (splitChars '/' s.toList).map (fun cs => String.mk cs)

/-- Embeds `resolve_ref` (json_schema.py lines 51-59).  The referenced name is
the last `/`-separated component of the ref string; external refs and missing
definitions fall back to `{"type": "object"}`.  A non-string ref raises
(`.startswith` on a non-string), as in Python. -/
def resolveRef (ref : Json) (defs : List (String × Json)) : Except String Json :=
  match ref with
  | .str r =>
    if pyStartsWith r "#/$defs/" then
      let defName := (pySplitSlash r).getLastD ""
      match (defs.find? (fun kv => kv.1 = defName)) with
      | some kv => .ok kv.2
      | none => .ok typeObjectJson
    else .ok typeObjectJson
  | _ => .error "AttributeError"

/-- Elements produced when the value stored under `anyOf`/`allOf` is iterated,
per Python iteration: list elements, string characters (as length-1 strings),
dict keys; other values raise `TypeError`.  Characters and keys are strings,
which `process_schema` returns unchanged, so they appear here already in final
form. -/
def pyIterStrings (j : Json) : Except String (List Json) :=
  match j with
  | .str s => .ok (s.toList.map (fun c => Json.str (String.singleton c)))
  | .obj kvs => .ok (kvs.map (fun kv => Json.str kv.1))
  | _ => .error "TypeError"

mutual

/-- Embeds `process_schema` (json_schema.py lines 61-98): a dict containing
`$ref` is replaced wholesale by `resolve_ref`'s answer; otherwise the values
stored under `items`, `properties`, `anyOf`, `allOf`, `additionalProperties`
and `propertyNames` are processed recursively and every other entry is copied.
Non-dict values are returned unchanged.  A non-dict under `properties` raises
(`.items()` on a non-dict), as in Python. -/
def processSchema : Json → List (String × Json) → Except String Json
  | .obj kvs, defs =>
    match lookupKey kvs "$ref" with
    | some refv => resolveRef refv defs
    | none => do
      let kvs' ← processEntries kvs defs
      .ok (.obj kvs')
  | other, _ => .ok other

/-- One pass over a schema dict's entries, transforming the value stored under
each of the six keys `process_schema` rewrites and copying every other
entry. -/
def processEntries : List (String × Json) → List (String × Json) →
    Except String (List (String × Json))
  | [], _ => .ok []
  | (k, v) :: rest, defs => do
    let v' ←
      if k = "items" ∨ k = "additionalProperties" ∨ k = "propertyNames" then
        processSchema v defs
      else if k = "properties" then
        match v with
        | .obj pkvs => do
          let pkvs' ← processProps pkvs defs
          Except.ok (Json.obj pkvs')
        | _ => Except.error "AttributeError"
      else if k = "anyOf" ∨ k = "allOf" then
        match v with
        | .arr xs => do
          let xs' ← processList xs defs
          Except.ok (Json.arr xs')
        | other => do
          let elems ← pyIterStrings other
          Except.ok (Json.arr elems)
      else Except.ok v
    let rest' ← processEntries rest defs
    .ok ((k, v') :: rest')

/-- Process each property schema of a `properties` dict. -/
def processProps : List (String × Json) → List (String × Json) →
    Except String (List (String × Json))
  | [], _ => .ok []
  | (k, v) :: rest, defs => do
    let v' ← processSchema v defs
    let rest' ← processProps rest defs
    .ok ((k, v') :: rest')

/-- Process each element of an `anyOf`/`allOf` list. -/
def processList : List Json → List (String × Json) →
    Except String (List Json)
  | [], _ => .ok []
  | x :: rest, defs => do
    let x' ← processSchema x defs
    let rest' ← processList rest defs
    .ok (x' :: rest')

end

/-- One pass over the `$defs` entries, resolving each against the same raw
definitions map. -/
def resolveDefinitionsAux : List (String × Json) → List (String × Json) →
    Except String (List (String × Json))
  | [], _ => .ok []
  | (n, d) :: rest, dkvs => do
    let d' ← processSchema d dkvs
    let rest' ← resolveDefinitionsAux rest dkvs
    .ok ((n, d') :: rest')

/-- Resolve each definition of the `$defs` map against the raw definitions,
as the loop at json_schema.py lines 104-106 does. -/
def resolveDefinitions (dkvs : List (String × Json)) :
    Except String (List (String × Json)) :=
  resolveDefinitionsAux dkvs dkvs

/-- The `schema.pop("$defs", {})` step of `inline_pydantic_schema`: the value
of `$defs` when present (its `.items()` raising on a non-dict value), the
empty dict otherwise. -/
def defsOf (kvs : List (String × Json)) :
    Except String (List (String × Json)) :=
  match lookupKey kvs "$defs" with
  | some (.obj dkvs) => .ok dkvs
  | some _ => .error "AttributeError"
  | none => .ok []

/-- Embeds `inline_pydantic_schema` (json_schema.py lines 44-115).  `$defs` is
popped from the input, its entries are resolved one level against the raw
definitions, the remaining schema is processed against the resolved
definitions, and a residual top-level `$defs` is deleted.  The final
`"$defs" in result` / `del result["$defs"]` pair raises a `TypeError` when the
processed result is not a dict, exactly as in Python. -/
def inline_pydantic_schema (schema : Json) : Except String Json :=
  match schema with
  | .obj kvs => do
    let definitions ← defsOf kvs
    let kvs' := dictErase kvs "$defs"
    let resolved ← resolveDefinitions definitions
    let result ← processSchema (.obj kvs') resolved
    let hasDefs ← pyContains result "$defs"
    if hasDefs then pyDelKey result "$defs" else .ok result
  | other => .ok other

/-- Python type hints as `json_schema.py` inspects them through
`typing.get_origin` / `typing.get_args`.  `named` is a plain class whose
`__name__` is the given string; `special` is a typing special form without a
`__name__` attribute, so that touching `__name__` raises `AttributeError`.
`modelOf` carries a pydantic model's `model_json_schema()` dict;
`dataclassOf` carries `__dataclass_fields__` as name/type pairs. -/
inductive PyHint where
  | int
  | str
  | bool
  | noneType
  | named (name : String)
  | listOf (args : List PyHint)
  | dictOf (args : List PyHint)
  | unionOf (args : List PyHint)
  | enumOf (values : List String)
  | modelOf (schema : List (String × Json))
  | dataclassOf (fields : List (String × PyHint))
  | special

/-- Whether a hint is `NoneType` (Python's `arg is type(None)`). -/
def isNoneHint : PyHint → Bool
  | .noneType => true
  | _ => false

/-- Embeds `get_json_type_for_py_type` (json_schema.py lines 20-41). -/
def get_json_type_for_py_type (arg : String) : String :=
  if arg = "int" ∨ arg = "float" ∨ arg = "complex" ∨ arg = "Decimal" then "number"
  else if arg = "str" ∨ arg = "string" then "string"
  else if arg = "bool" ∨ arg = "boolean" then "boolean"
  else if arg = "NoneType" ∨ arg = "None" then "null"
  else if arg = "list" ∨ arg = "tuple" ∨ arg = "set" ∨ arg = "frozenset" then "array"
  else if arg = "dict" ∨ arg = "mapping" then "object"
  else "object"

/-- The fallback schema built from `type_hint.__name__` (lines 183-187). -/
def fallbackSchema (name : String) : Json :=
  let t := get_json_type_for_py_type name
  if t = "object" then
    .obj [("type", .str t), ("properties", .obj []), ("additionalProperties", .bool false)]
  else .obj [("type", .str t)]

/-- Python truthiness of a JSON value. -/
def pyTruthy (j : Json) : Bool :=
  match j with
  | .null => false
  | .bool b => b
  | .num n => n ≠ 0
  | .str s => s ≠ ""
  | .arr xs => !xs.isEmpty
  | .obj kvs => !kvs.isEmpty

/-- Python dict assignment `x[k] = v`; only dicts support string keys. -/
def pySetItem (j : Json) (k : String) (v : Json) : Except String Json :=
  match j with
  | .obj kvs => .ok (.obj (dictSet kvs k v))
  | _ => .error "TypeError"

/-- Python iteration over an arbitrary value: list elements, string characters
(as length-1 strings), dict keys; everything else raises `TypeError`. -/
def pyIterElems (j : Json) : Except String (List Json) :=
  match j with
  | .arr xs => .ok xs
  | .str s => .ok (s.toList.map (fun c => Json.str (String.singleton c)))
  | .obj kvs => .ok (kvs.map (fun kv => Json.str kv.1))
  | _ => .error "TypeError"

/-- Python's `any(schema["type"] == "null" for schema in elems)` with its
short-circuit evaluation: a member without a `"type"` key raises `KeyError`,
but only when it is reached before a member of type `"null"`. -/
def anyNullTypeMember (elems : List Json) : Except String Bool :=
  match elems with
  | [] => .ok false
  | x :: rest => do
    let t ← pyGetItem x "type"
    if t.eqStr "null" then .ok true else anyNullTypeMember rest

/-- Python's `next(schema["type"] for schema in elems if schema["type"] != "null")`:
the first member type different from `"null"`, raising `StopIteration` when
there is none. -/
def firstNonNullTypeMember (elems : List Json) : Except String Json :=
  match elems with
  | [] => .error "StopIteration"
  | x :: rest => do
    let t ← pyGetItem x "type"
    if t.eqStr "null" then firstNonNullTypeMember rest else .ok t

mutual

/-- Embeds `get_json_schema_for_arg` (json_schema.py lines 118-187).
`.ok none` is Python's `None` return (an empty union); `.error` is a raised
exception.  Container origins are checked first, then `Enum`, `BaseModel` and
dataclasses; the fallback consults `__name__`, which raises for `special`. -/
def get_json_schema_for_arg (h : PyHint) : Except String (Option Json) :=
  match h with
  | .listOf args =>
    match args with
    | [] =>
      .ok (some (.obj [("type", .str "array"),
        ("items", .obj [("type", .str "string")])]))
    | a :: _ => do
      let s ← get_json_schema_for_arg a
      .ok (some (.obj [("type", .str "array"), ("items", s.getD .null)]))
  | .dictOf args =>
    match args with
    | [] =>
      .ok (some (.obj [("type", .str "object"),
        ("propertyNames", .obj [("type", .str "string")]),
        ("additionalProperties", .obj [("type", .str "string")])]))
    | [a] => do
      let ks ← get_json_schema_for_arg a
      .ok (some (.obj [("type", .str "object"),
        ("propertyNames", ks.getD .null),
        ("additionalProperties", .obj [("type", .str "string")])]))
    | a :: b :: _ => do
      let ks ← get_json_schema_for_arg a
      let vs ← get_json_schema_for_arg b
      .ok (some (.obj [("type", .str "object"),
        ("propertyNames", ks.getD .null),
        ("additionalProperties", vs.getD .null)]))
  | .unionOf args =>
    let types := unionBranchSchemas args
    if types.isEmpty then .ok none
    else .ok (some (.obj [("anyOf", .arr types)]))
  | .enumOf values =>
    .ok (some (.obj [("type", .str "string"),
      ("enum", .arr (values.map Json.str))]))
  | .modelOf skvs => do
    let s ← inline_pydantic_schema (.obj skvs)
    .ok (some s)
  | .dataclassOf fields => do
    let pr ← dataclassFieldSchemas fields
    let base := [("type", Json.str "object"), ("properties", Json.obj pr.1),
      ("additionalProperties", Json.bool false)]
    if pr.2.isEmpty then .ok (some (.obj base))
    else .ok (some (.obj (base ++ [("required", .arr (pr.2.map Json.str))])))
  | .int => .ok (some (fallbackSchema "int"))
  | .str => .ok (some (fallbackSchema "str"))
  | .bool => .ok (some (fallbackSchema "bool"))
  | .noneType => .ok (some (fallbackSchema "NoneType"))
  | .named n => .ok (some (fallbackSchema n))
  | .special => .error "AttributeError"

/-- The `types` list collected by the union branch (lines 134-141): falsy
schemas (`None`) are not appended and raising branches are skipped by the
`except Exception: continue`. -/
def unionBranchSchemas (args : List PyHint) : List Json :=
  match args with
  | [] => []
  | a :: rest =>
    match get_json_schema_for_arg a with
    | .ok (some s) => s :: unionBranchSchemas rest
    | _ => unionBranchSchemas rest

/-- The properties/required accumulation of the dataclass branch (lines
155-181).  A field whose schema is falsy is marked required but not added to
properties; an `anyOf` carrying a `"null"` alternative is collapsed to the
first non-null member type; exceptions propagate out of the branch. -/
def dataclassFieldSchemas (fields : List (String × PyHint)) :
    Except String (List (String × Json) × List String) :=
  match fields with
  | [] => .ok ([], [])
  | (fname, ftype) :: rest => do
    let fs ← get_json_schema_for_arg ftype
    match fs with
    | none => do
      let pr ← dataclassFieldSchemas rest
      .ok (pr.1, fname :: pr.2)
    | some s =>
      if pyTruthy s then do
        let hasAnyOf ← pyContains s "anyOf"
        if hasAnyOf then do
          let av ← pyGetItem s "anyOf"
          let elems ← pyIterElems av
          let hasNull ← anyNullTypeMember elems
          if hasNull then do
            let t ← firstNonNullTypeMember elems
            let s' ← pySetItem s "type" t
            let s'' ← pyDelKey s' "anyOf"
            let pr ← dataclassFieldSchemas rest
            .ok ((fname, s'') :: pr.1, pr.2)
          else do
            let pr ← dataclassFieldSchemas rest
            .ok ((fname, s) :: pr.1, fname :: pr.2)
        else do
          let pr ← dataclassFieldSchemas rest
          .ok ((fname, s) :: pr.1, fname :: pr.2)
      else do
        let pr ← dataclassFieldSchemas rest
        .ok (pr.1, fname :: pr.2)

end

/-- The Optional-unwrap plus `get_json_schema_for_arg` call performed for one
parameter inside `get_json_schema`'s `try` block (lines 206-219).
`is_optional` holds exactly for a `typing.Union` of two arguments one of which
is `NoneType`; the hint is then replaced by its first non-`None` argument. -/
def processParam (h : PyHint) : Except String (Option Json) :=
  match h with
  | .unionOf args =>
    if args.length = 2 ∧ args.any isNoneHint then
      match args.find? (fun a => !isNoneHint a) with
      | some t => get_json_schema_for_arg t
      | none => .error "StopIteration"
    else get_json_schema_for_arg (.unionOf args)
  | h => get_json_schema_for_arg h

/-- The description attachment (lines 223-225) followed by nothing else that
can raise: a present, non-empty description is written into the schema dict. -/
def processParamWithDescr (h : PyHint) (name : String)
    (descrs : List (String × String)) : Except String (Option Json) := do
  let s? ← processParam h
  match s? with
  | none => .ok none
  | some s =>
    match descrs.find? (fun kv => kv.1 = name) with
    | some kv =>
      if kv.2 ≠ "" then do
        let s' ← pySetItem s "description" (.str kv.2)
        .ok (some s')
      else .ok (some s)
    | none => .ok (some s)

/-- The `properties` accumulation loop of `get_json_schema` (lines 201-232):
`"return"` is skipped, a parameter whose processing raises (`except ...
continue`) or yields `None` is omitted, every other parameter is added in
order. -/
def buildProps (hints : List (String × PyHint))
    (descrs : List (String × String)) : List (String × Json) :=
  match hints with
  | [] => []
  | (k, h) :: rest =>
    if k = "return" then buildProps rest descrs
    else
      match processParamWithDescr h k descrs with
      | .ok (some s) => (k, s) :: buildProps rest descrs
      | _ => buildProps rest descrs

/-- Embeds `get_json_schema` (json_schema.py lines 190-234).  The function is
total: every exception raised while processing a single parameter is caught by
the per-parameter `try`/`except` and only omits that parameter. -/
def get_json_schema (hints : List (String × PyHint))
    (descrs : List (String × String)) (strict : Bool) : Json :=
  .obj ([("type", .str "object"), ("properties", .obj (buildProps hints descrs))]
    ++ (if strict then [("additionalProperties", .bool false)] else []))

end Agno.Schema

namespace Agno.Events

/-- Modelled from the spec: the closed set of run-lifecycle event kinds
(spec section 3, RunEvent).  The implementation of the event model is not in
the supplied sources; only its integration tests are. -/
inductive EventKind where
  | run_started
  | run_content
  | tool_call_started
  | tool_call_completed
  | reasoning_started
  | reasoning_step
  | reasoning_completed
  | memory_update_started
  | memory_update_completed
  | parser_model_response_started
  | parser_model_response_completed
  | run_paused
  | run_continued
  | run_completed
  deriving DecidableEq, Repr

/-- Modelled from the spec: team-level events (`TeamRunEvent`) and member-level
events (`RunEvent`) are distinct event namespaces, so a consumer discriminates
by type (spec section 3, DelegationEdge). -/
inductive EventLevel where
  | team
  | member
  deriving DecidableEq, Repr

/-- Modelled from the spec: one emitted run event, carrying its namespace, its
kind and the kind-specific tool/content payload fields (spec section 3). -/
structure Event where
  level : EventLevel
  kind : EventKind
  tool_name : Option String := none
  tool_args : Option String := none
  tool_result : Option String := none
  content : Option String := none
  deriving DecidableEq, Repr

/-- Modelled from the spec: a tool is a named, schema-described callable; a
tool flagged `requires_confirmation` triggers the pause controller instead of
direct execution (spec section 6, tool boundary). -/
structure ToolDef where
  name : String
  args : String
  requiresConfirmation : Bool
  impl : String → String

/-- The result of invoking a tool directly on its arguments. -/
def directCall (t : ToolDef) : String := t.impl t.args

/-- A team-level lifecycle event with no payload. -/
def teamEvt (k : EventKind) : Event := { level := .team, kind := k }

/-- A member-level lifecycle event with no payload. -/
def memberEvt (k : EventKind) : Event := { level := .member, kind := k }

/-- The `tool_call_started` event for a tool call. -/
def toolStarted (lvl : EventLevel) (t : ToolDef) : Event :=
  { level := lvl, kind := .tool_call_started, tool_name := some t.name,
    tool_args := some t.args }

/-- The `tool_call_completed` event for a tool call, carrying its result. -/
def toolCompleted (lvl : EventLevel) (t : ToolDef) (res : String) : Event :=
  { level := lvl, kind := .tool_call_completed, tool_name := some t.name,
    tool_args := some t.args, tool_result := some res }

/-- The name of the delegation tool (spec section 4.4). -/
def delegateToolName : String := "delegate_task_to_member"

/-- Modelled from the spec: the team-level `tool_call_started` opening a
delegation bracket, with `args` including the member id (spec section 4.4). -/
def delegateStarted (memberId : String) : Event :=
  { level := .team, kind := .tool_call_started, tool_name := some delegateToolName,
    tool_args := some memberId }

/-- Modelled from the spec: the team-level `tool_call_completed` closing a
delegation bracket, with `result` = the member's final content
(spec section 4.4). -/
def delegateCompleted (memberId : String) (finalContent : String) : Event :=
  { level := .team, kind := .tool_call_completed, tool_name := some delegateToolName,
    tool_args := some memberId, tool_result := some finalContent }

/-- Modelled from the spec: the steps a member agent's run performs while
handling a delegated task (spec sections 4.1 and 4.4). -/
inductive MemberAction where
  | content (s : String)
  | toolCall (t : ToolDef)
  | reasoningStep

/-- Modelled from the spec: the steps a team-level run performs: content
deltas, tool calls (possibly confirmation-gated) and sequential delegation of
a task to a member, the member producing its own full sub-stream
(spec sections 4.1-4.4). -/
inductive Action where
  | content (s : String)
  | toolCall (t : ToolDef)
  | delegate (memberId : String) (finalContent : String) (body : List MemberAction)

/-- The events one member action emits, all in the member namespace. -/
def memberActionEvents : MemberAction → List Event
  | .content s => [{ level := .member, kind := .run_content, content := some s }]
  | .toolCall t => [toolStarted .member t, toolCompleted .member t (directCall t)]
  | .reasoningStep => [memberEvt .reasoning_step]

/-- Modelled from the spec: a member's own full, uninterrupted event
sub-stream: its `run_started`, its body events, its `run_completed`, all
tagged with the member event namespace (spec section 4.4). -/
def memberStream (body : List MemberAction) : List Event :=
  memberEvt .run_started :: (body.flatMap memberActionEvents
    ++ [memberEvt .run_completed])

/-- Modelled from the spec: run state (spec section 3, RunOutput.status). -/
inductive RunStatus where
  | pending
  | running
  | paused
  | completed
  | failed
  deriving DecidableEq, Repr

/-- The outcome of executing a run body: the body events emitted after
`run_started`, the names of the tools whose functions were actually invoked,
and, when the run pauses, the pending confirmation-gated tool together with
the remaining actions to execute on resume. -/
structure BodyResult where
  events : List Event
  invoked : List String
  paused : Option (ToolDef × List Action)

/-- Modelled from the spec: executing a run body (spec sections 4.2-4.4).
Content deltas emit `run_content`; an unconfirmed `requires_confirmation`
tool immediately suspends the run, recording the pending tool and the
continuation; an ordinary tool emits its started/completed bracket and invokes
its function; a delegation emits the team-level tool bracket around the
member's full sub-stream. -/
def runBody : List Action → BodyResult
  | [] => ⟨[], [], none⟩
  | .content s :: rest =>
    let r := runBody rest
    ⟨{ level := .team, kind := .run_content, content := some s } :: r.events,
      r.invoked, r.paused⟩
  | .toolCall t :: rest =>
    if t.requiresConfirmation then ⟨[], [], some (t, rest)⟩
    else
      let r := runBody rest
      ⟨toolStarted .team t :: toolCompleted .team t (directCall t) :: r.events,
        t.name :: r.invoked, r.paused⟩
  | .delegate mid fc body :: rest =>
    let r := runBody rest
    ⟨delegateStarted mid :: (memberStream body
        ++ delegateCompleted mid fc :: r.events),
      delegateToolName :: r.invoked, r.paused⟩

/-- Modelled from the spec: the full team-level event stream of one run:
exactly one `run_started` first, the body events, then exactly one terminal
event: `run_paused` when a confirmation-gated tool suspended the run,
`run_completed` otherwise (spec sections 3 and 4.1). -/
def runStream (acts : List Action) : List Event :=
  let r := runBody acts
  teamEvt .run_started :: (r.events
    ++ [teamEvt (if r.paused.isSome then .run_paused else .run_completed)])

/-- Modelled from the spec: the status the run reaches: `paused` when a
confirmation-gated tool suspended it, `completed` otherwise
(spec section 4.3). -/
def runStatus (acts : List Action) : RunStatus :=
  if (runBody acts).paused.isSome then .paused else .completed

/-- The names of the tools whose functions were actually invoked during the
run body. -/
def runInvoked (acts : List Action) : List String := (runBody acts).invoked

/-- All tool names a list of actions could ever invoke. -/
def actionToolNames : List Action → List String
  | [] => []
  | .content _ :: rest => actionToolNames rest
  | .toolCall t :: rest => t.name :: actionToolNames rest
  | .delegate _ _ _ :: rest => delegateToolName :: actionToolNames rest

/-- Whether no tool call in the list requires confirmation. -/
def noConfirmTool : List Action → Bool
  | [] => true
  | .toolCall t :: rest => !t.requiresConfirmation && noConfirmTool rest
  | _ :: rest => noConfirmTool rest

/-- Modelled from the spec: the result recorded for a rejected
confirmation-gated tool call, indicating the call was skipped without
executing it (spec section 4.3). -/
def skippedResult (name : String) : String :=
  "Tool call " ++ name ++ " was skipped"

/-- Modelled from the spec: `continue_run` on a paused run (spec section 4.3).
The resumed stream emits `run_continued` first, then resolves the pending tool
call: confirmed, the tool function is invoked and its direct-call result is
recorded; rejected, the skipped result is recorded and the function is never
invoked.  Execution then resumes exactly after tool-call resolution with the
remaining actions and ends in a terminal event.  Returns the resumed stream
together with the names of the tools actually invoked during resumption. -/
def continueRun (t : ToolDef) (rest : List Action) (confirmed : Bool) :
    List Event × List String :=
  let res := if confirmed then directCall t else skippedResult t.name
  let r := runBody rest
  (teamEvt .run_continued :: toolStarted .team t :: toolCompleted .team t res
      :: (r.events
        ++ [teamEvt (if r.paused.isSome then .run_paused else .run_completed)]),
    (if confirmed then [t.name] else []) ++ r.invoked)

/-- Team-level `run_started` recogniser. -/
def isTeamStarted (e : Event) : Bool :=
  e.level == .team && e.kind == .run_started

/-- Team-level terminal event recogniser (`run_completed` or `run_paused`). -/
def isTeamTerminal (e : Event) : Bool :=
  e.level == .team && (e.kind == .run_completed || e.kind == .run_paused)

/-- Team-level `run_continued` recogniser. -/
def isTeamContinued (e : Event) : Bool :=
  e.level == .team && e.kind == .run_continued

/-- Any team-level lifecycle event: initial, terminal or continuation. -/
def isTeamLifecycle (e : Event) : Bool :=
  isTeamStarted e || isTeamTerminal e || isTeamContinued e

/-- Team-level delegation `tool_call_started` recogniser. -/
def isDelegateStarted (e : Event) : Bool :=
  e.level == .team && e.kind == .tool_call_started
    && e.tool_name == some delegateToolName

/-- Team-level delegation `tool_call_completed` recogniser. -/
def isDelegateCompleted (e : Event) : Bool :=
  e.level == .team && e.kind == .tool_call_completed
    && e.tool_name == some delegateToolName

/-- The first `tool_call_completed` event of a stream, any namespace. -/
def firstToolCompleted (es : List Event) : Option Event :=
  es.find? (fun e => e.kind == .tool_call_completed)

/-- Modelled from the spec: with `store_events` enabled, the persisted
`events` list retains the lifecycle events of the stream but never the
`run_content` deltas, to avoid unbounded growth (spec section 3, RunOutput).

-/
def storedEvents (events : List Event) : List Event :=
  events.filter (fun e => !(e.kind == .run_content))

end Agno.Events

namespace Agno.Sessions

/-- Modelled from the spec: the session type discriminator column of the
session store (spec section 4.5). -/
inductive SessionType where
  | agent
  | team
  | workflow
  deriving DecidableEq, Repr

/-- Modelled from the spec: one persisted session row: a unique `session_id`,
its type, the owning user, the free-form data maps, the component-specific
data, the latest runs and the timestamps (spec section 3, Session). -/
structure SessionRecord where
  session_id : String
  session_type : SessionType
  user_id : Option String := none
  session_data : List (String × String) := []
  metadata : List (String × String) := []
  component_data : List (String × String) := []
  runs : List String := []
  created_at : Nat := 0
  updated_at : Nat := 0
  deriving DecidableEq, Repr

/-- A session store: the rows of the sessions table, in insertion order. -/
def Store := List SessionRecord

/-- Modelled from the spec: the merge performed by `upsert_session` on an
existing row: the mutable fields (session_data, metadata, component-specific
data, latest runs, updated_at) are overwritten from the incoming record, the
identity fields and created_at are kept (spec section 4.5; per the spec's
design note the exercised semantics is full replacement of each field). -/
def mergeInto (old new : SessionRecord) : SessionRecord :=
  { old with
    session_data := new.session_data
    metadata := new.metadata
    component_data := new.component_data
    runs := new.runs
    updated_at := new.updated_at }

/-- Modelled from the spec: `upsert_session` updates the existing row in place
when the `session_id` already exists and appends a new row otherwise; it never
creates a second row with the same id (spec section 4.5). -/
def upsert_session (store : List SessionRecord) (s : SessionRecord) :
    List SessionRecord :=
  if store.any (fun r => r.session_id = s.session_id) then
    store.map (fun r => if r.session_id = s.session_id then mergeInto r s else r)
  else store ++ [s]

/-- Modelled from the spec: `get_session` finds the row by `session_id` and
returns `none` (rather than raising) when the row is absent, when its stored
type differs from the requested `session_type`, or when a `user_id` filter is
given and does not match (spec section 4.5). -/
def get_session (store : List SessionRecord) (sid : String)
    (stype : SessionType) (uid : Option String := none) :
    Option SessionRecord :=
  match store.find? (fun r => r.session_id == sid) with
  | none => none
  | some r =>
    if r.session_type ≠ stype then none
    else
      match uid with
      | none => some r
      | some u => if r.user_id = some u then some r else none

/-- Modelled from the spec: `get_sessions` filters by session type, sorts by a
fixed sort key, and paginates with `limit` and 1-based `page`
(spec section 4.5). -/
def get_sessions (store : List SessionRecord) (stype : SessionType)
    (sortKey : SessionRecord → Nat) (limit page : Nat) : List SessionRecord :=
  let sorted := (store.filter (fun r => r.session_type == stype)).mergeSort
    (fun a b => sortKey a ≤ sortKey b)
  (sorted.drop ((page - 1) * limit)).take limit

/-- Modelled from the spec: `rename_session` writes the new name into the
matching row's `session_data` under `session_name` (spec section 4.5). -/
def rename_session (store : List SessionRecord) (sid : String)
    (stype : SessionType) (newName : String) : List SessionRecord :=
  store.map (fun r =>
    if r.session_id = sid ∧ r.session_type = stype then
      { r with session_data :=
          (r.session_data.filter (fun kv => kv.1 ≠ "session_name"))
            ++ [("session_name", newName)] }
    else r)

/-- Modelled from the spec: `delete_session` removes the row by id
(spec section 4.5). -/
def delete_session (store : List SessionRecord) (sid : String) :
    List SessionRecord :=
  store.filter (fun r => r.session_id ≠ sid)

/-- The session ids of the rows of a store. -/
def storeIds (store : List SessionRecord) : List String :=
  store.map (fun r => r.session_id)

end Agno.Sessions

namespace Agno.Events

theorem memberActionEvents_level (a : MemberAction) :
    ∀ e ∈ memberActionEvents a, e.level = .member := by
  intro e he
  cases a <;> simp [memberActionEvents, toolStarted, toolCompleted, memberEvt] at he <;>
    first
    | (subst he; rfl)
    | (rcases he with h | h <;> subst h <;> rfl)

theorem memberStream_level (b : List MemberAction) :
    ∀ e ∈ memberStream b, e.level = .member := by
  intro e he
  simp only [memberStream, List.mem_cons, List.mem_append, List.mem_flatMap,
    List.mem_singleton] at he
  rcases he with h | ⟨a, _, ha⟩ | h
  · subst h; rfl
  · exact memberActionEvents_level a e ha
  · simp only [List.mem_singleton, List.not_mem_nil, or_false] at h
    subst h; rfl

theorem lifecycle_false_of_member {e : Event} (h : e.level = .member) :
    isTeamLifecycle e = false := by
  simp [isTeamLifecycle, isTeamStarted, isTeamTerminal, isTeamContinued, h]

theorem runBody_events_plain (acts : List Action) :
    ∀ e ∈ (runBody acts).events, isTeamLifecycle e = false := by
  induction acts with
  | nil => simp [runBody]
  | cons a rest ih =>
    cases a with
    | content s =>
      intro e he
      simp only [runBody, List.mem_cons] at he
      rcases he with h | h
      · subst h; rfl
      · exact ih e h
    | toolCall t =>
      intro e he
      by_cases hc : t.requiresConfirmation = true
      · simp [runBody, hc] at he
      · simp only [runBody, Bool.not_eq_true] at he
        rw [if_neg (by simp [hc])] at he
        simp only [List.mem_cons] at he
        rcases he with h | h | h
        · subst h; rfl
        · subst h; rfl
        · exact ih e h
    | delegate mid fc body =>
      intro e he
      simp only [runBody, List.mem_cons, List.mem_append] at he
      rcases he with h | h | h | h
      · subst h; rfl
      · exact lifecycle_false_of_member (memberStream_level body e h)
      · subst h; rfl
      · exact ih e h

theorem lifecycle_countP_zero {p : Event → Bool} (es : List Event)
    (hall : ∀ e ∈ es, isTeamLifecycle e = false)
    (himp : ∀ e, isTeamLifecycle e = false → p e = false) :
    es.countP p = 0 := by
  rw [List.countP_eq_zero]
  intro e he
  simp [himp e (hall e he)]

theorem getLast?_cons_append_singleton (x y : Event) (l : List Event) :
    (x :: (l ++ [y])).getLast? = some y := by
  rw [← List.cons_append]
  exact List.getLast?_concat _

/-- C1: for every run the emitted stream has exactly one team-level
`run_started` and it is the first event; exactly one team-level terminal event
(`run_completed` or `run_paused`) and it is the last event, so no event
follows it; it contains no `run_continued`; and a resumed stream emits
`run_continued` exactly once, as its first event, again ending in exactly one
terminal event.  Member-level events live in a distinct namespace and are not
counted as team lifecycle events. -/
theorem run_stream_lifecycle_invariant (acts : List Action) :
    (runStream acts).head? = some (teamEvt .run_started)
    ∧ (runStream acts).countP (fun e => isTeamStarted e) = 1
    ∧ (runStream acts).countP (fun e => isTeamTerminal e) = 1
    ∧ (∃ e, (runStream acts).getLast? = some e ∧ isTeamTerminal e = true)
    ∧ (runStream acts).countP (fun e => isTeamContinued e) = 0
    ∧ (∀ t rest c,
        (continueRun t rest c).1.head? = some (teamEvt .run_continued)
        ∧ (continueRun t rest c).1.countP (fun e => isTeamContinued e) = 1
        ∧ (continueRun t rest c).1.countP (fun e => isTeamStarted e) = 0
        ∧ (continueRun t rest c).1.countP (fun e => isTeamTerminal e) = 1
        ∧ ∃ e, (continueRun t rest c).1.getLast? = some e
            ∧ isTeamTerminal e = true) := by
  have hplain := runBody_events_plain acts
  have hstart0 : (runBody acts).events.countP (fun e => isTeamStarted e) = 0 :=
    lifecycle_countP_zero _ hplain (by
      intro e h
      simp only [isTeamLifecycle, Bool.or_eq_false_iff] at h
      exact h.1.1)
  have hterm0 : (runBody acts).events.countP (fun e => isTeamTerminal e) = 0 :=
    lifecycle_countP_zero _ hplain (by
      intro e h
      simp only [isTeamLifecycle, Bool.or_eq_false_iff] at h
      exact h.1.2)
  have hcont0 : (runBody acts).events.countP (fun e => isTeamContinued e) = 0 :=
    lifecycle_countP_zero _ hplain (by
      intro e h
      simp only [isTeamLifecycle, Bool.or_eq_false_iff] at h
      exact h.2)
  refine ⟨rfl, ?_, ?_, ?_, ?_, ?_⟩
  · simp [runStream, List.countP_cons, List.countP_append, hstart0]
    cases h : (runBody acts).paused.isSome <;> simp [h, isTeamStarted, teamEvt]
  · simp [runStream, List.countP_cons, List.countP_append, hterm0]
    cases h : (runBody acts).paused.isSome <;> simp [h, isTeamTerminal, teamEvt]
  · refine ⟨teamEvt (if (runBody acts).paused.isSome then .run_paused
      else .run_completed), ?_, ?_⟩
    · exact getLast?_cons_append_singleton _ _ _
    · cases h : (runBody acts).paused.isSome <;> simp [h, isTeamTerminal, teamEvt]
  · simp [runStream, List.countP_cons, List.countP_append, hcont0]
    cases h : (runBody acts).paused.isSome <;> simp [h, isTeamContinued, teamEvt]
  · intro t rest c
    have hplainr := runBody_events_plain rest
    have hstart0r : (runBody rest).events.countP (fun e => isTeamStarted e) = 0 :=
      lifecycle_countP_zero _ hplainr (by
        intro e h
        simp only [isTeamLifecycle, Bool.or_eq_false_iff] at h
        exact h.1.1)
    have hterm0r : (runBody rest).events.countP (fun e => isTeamTerminal e) = 0 :=
      lifecycle_countP_zero _ hplainr (by
        intro e h
        simp only [isTeamLifecycle, Bool.or_eq_false_iff] at h
        exact h.1.2)
    have hcont0r : (runBody rest).events.countP (fun e => isTeamContinued e) = 0 :=
      lifecycle_countP_zero _ hplainr (by
        intro e h
        simp only [isTeamLifecycle, Bool.or_eq_false_iff] at h
        exact h.2)
    have ec1 : isTeamContinued (teamEvt .run_continued) = true := rfl
    have ec2 : isTeamContinued (toolStarted .team t) = false := rfl
    have ec3 : ∀ res, isTeamContinued (toolCompleted .team t res) = false :=
      fun _ => rfl
    have ec4 : isTeamContinued (teamEvt .run_paused) = false := rfl
    have ec5 : isTeamContinued (teamEvt .run_completed) = false := rfl
    have es1 : isTeamStarted (teamEvt .run_continued) = false := rfl
    have es2 : isTeamStarted (toolStarted .team t) = false := rfl
    have es3 : ∀ res, isTeamStarted (toolCompleted .team t res) = false :=
      fun _ => rfl
    have es4 : isTeamStarted (teamEvt .run_paused) = false := rfl
    have es5 : isTeamStarted (teamEvt .run_completed) = false := rfl
    have et1 : isTeamTerminal (teamEvt .run_continued) = false := rfl
    have et2 : isTeamTerminal (toolStarted .team t) = false := rfl
    have et3 : ∀ res, isTeamTerminal (toolCompleted .team t res) = false :=
      fun _ => rfl
    have et4 : isTeamTerminal (teamEvt .run_paused) = true := rfl
    have et5 : isTeamTerminal (teamEvt .run_completed) = true := rfl
    refine ⟨rfl, ?_, ?_, ?_, ?_⟩
    · cases h : (runBody rest).paused.isSome <;>
        simp [continueRun, h, List.countP_cons, List.countP_append, hcont0r,
          ec1, ec2, ec3, ec4, ec5]
    · cases h : (runBody rest).paused.isSome <;>
        simp [continueRun, h, List.countP_cons, List.countP_append, hstart0r,
          es1, es2, es3, es4, es5]
    · cases h : (runBody rest).paused.isSome <;>
        simp [continueRun, h, List.countP_cons, List.countP_append, hterm0r,
          et1, et2, et3, et4, et5]
    · refine ⟨teamEvt (if (runBody rest).paused.isSome then .run_paused
        else .run_completed), ?_, ?_⟩
      · show (_ :: _ :: _ :: (_ ++ [_])).getLast? = _
        rw [← List.cons_append, ← List.cons_append, ← List.cons_append]
        exact List.getLast?_concat _
      · cases h : (runBody rest).paused.isSome <;>
          simp [h, isTeamTerminal, teamEvt]

theorem memberStream_countP_zero {p : Event → Bool} (b : List MemberAction)
    (himp : ∀ e, e.level = .member → p e = false) :
    (memberStream b).countP p = 0 := by
  rw [List.countP_eq_zero]
  intro e he
  simp [himp e (memberStream_level b e he)]

theorem memberStream_head (b : List MemberAction) :
    (memberStream b).head? = some (memberEvt .run_started) := rfl

theorem memberStream_last (b : List MemberAction) :
    (memberStream b).getLast? = some (memberEvt .run_completed) :=
  getLast?_cons_append_singleton _ _ _

/-- C3: a team run that delegates to two members sequentially emits exactly
two team-level `tool_call_started`/`tool_call_completed` pairs named
`delegate_task_to_member`, the stream being literally the team bracket events
around each member's full `run_started` … `run_completed` sub-stream, and all
member events carry the member-level namespace. -/
theorem delegation_bracketing (m1 m2 f1 f2 : String) (b1 b2 : List MemberAction) :
    runStream [.delegate m1 f1 b1, .delegate m2 f2 b2]
      = teamEvt .run_started :: delegateStarted m1 :: (memberStream b1
          ++ delegateCompleted m1 f1 :: delegateStarted m2 :: (memberStream b2
          ++ [delegateCompleted m2 f2, teamEvt .run_completed]))
    ∧ (runStream [.delegate m1 f1 b1, .delegate m2 f2 b2]).countP
        (fun e => isDelegateStarted e) = 2
    ∧ (runStream [.delegate m1 f1 b1, .delegate m2 f2 b2]).countP
        (fun e => isDelegateCompleted e) = 2
    ∧ (∀ e ∈ memberStream b1, e.level = .member)
    ∧ (∀ e ∈ memberStream b2, e.level = .member)
    ∧ (memberStream b1).head? = some (memberEvt .run_started)
    ∧ (memberStream b1).getLast? = some (memberEvt .run_completed)
    ∧ (memberStream b2).head? = some (memberEvt .run_started)
    ∧ (memberStream b2).getLast? = some (memberEvt .run_completed) := by
  have heq : runStream [.delegate m1 f1 b1, .delegate m2 f2 b2]
      = teamEvt .run_started :: delegateStarted m1 :: (memberStream b1
          ++ delegateCompleted m1 f1 :: delegateStarted m2 :: (memberStream b2
          ++ [delegateCompleted m2 f2, teamEvt .run_completed])) := by
    simp [runStream, runBody, List.append_assoc]
  have hds1 : ∀ e, e.level = .member → isDelegateStarted e = false := by
    intro e h
    simp [isDelegateStarted, h]
  have hdc1 : ∀ e, e.level = .member → isDelegateCompleted e = false := by
    intro e h
    simp [isDelegateCompleted, h]
  have hz1 := memberStream_countP_zero (p := fun e => isDelegateStarted e) b1 hds1
  have hz2 := memberStream_countP_zero (p := fun e => isDelegateStarted e) b2 hds1
  have hz3 := memberStream_countP_zero (p := fun e => isDelegateCompleted e) b1 hdc1
  have hz4 := memberStream_countP_zero (p := fun e => isDelegateCompleted e) b2 hdc1
  have hv1 : isDelegateStarted (teamEvt .run_started) = false := rfl
  have hv2 : ∀ m, isDelegateStarted (delegateStarted m) = true := fun _ => rfl
  have hv3 : ∀ m f, isDelegateStarted (delegateCompleted m f) = false :=
    fun _ _ => rfl
  have hv4 : isDelegateStarted (teamEvt .run_completed) = false := rfl
  have hw1 : isDelegateCompleted (teamEvt .run_started) = false := rfl
  have hw2 : ∀ m, isDelegateCompleted (delegateStarted m) = false := fun _ => rfl
  have hw3 : ∀ m f, isDelegateCompleted (delegateCompleted m f) = true :=
    fun _ _ => rfl
  have hw4 : isDelegateCompleted (teamEvt .run_completed) = false := rfl
  refine ⟨heq, ?_, ?_, memberStream_level b1, memberStream_level b2,
    memberStream_head b1, memberStream_last b1, memberStream_head b2,
    memberStream_last b2⟩
  · rw [heq]
    simp [List.countP_cons, List.countP_append, hz1, hz2, hv1, hv2, hv3, hv4]
  · rw [heq]
    simp [List.countP_cons, List.countP_append, hz3, hz4, hw1, hw2, hw3, hw4]

/-- C6: with `store_events` enabled the persisted events list never contains a
`run_content` delta, and for a run whose body is pure content streaming the
persisted list is exactly the `run_started` and `run_completed` lifecycle
events, even though the live stream contained the deltas. -/
theorem stored_events_drop_content (acts : List Action) (contents : List String) :
    (∀ e ∈ storedEvents (runStream acts), (e.kind == .run_content) = false)
    ∧ storedEvents (runStream (contents.map .content))
        = [teamEvt .run_started, teamEvt .run_completed] := by
  constructor
  · intro e he
    simp only [storedEvents, List.mem_filter, Bool.not_eq_eq_eq_not,
      Bool.not_true] at he
    exact he.2
  · have hb : runBody (contents.map Action.content)
        = ⟨contents.map (fun s =>
            { level := .team, kind := .run_content, content := some s }), [], none⟩ := by
      induction contents with
      | nil => rfl
      | cons c cs ih => simp [runBody, ih]
    have hmap : (contents.map (fun s =>
        ({ level := .team, kind := .run_content, content := some s } : Event))).filter
          (fun e => !(e.kind == .run_content)) = [] := by
      rw [List.filter_eq_nil_iff]
      intro a ha
      simp only [List.mem_map] at ha
      obtain ⟨s, _, rfl⟩ := ha
      simp
    simp [storedEvents, runStream, hb, List.filter_append, hmap, teamEvt]

theorem runBody_append_noConfirm (pre acts : List Action)
    (hpre : noConfirmTool pre = true) :
    runBody (pre ++ acts) = ⟨(runBody pre).events ++ (runBody acts).events,
      (runBody pre).invoked ++ (runBody acts).invoked, (runBody acts).paused⟩ := by
  induction pre with
  | nil => simp [runBody]
  | cons a rest ih =>
    cases a with
    | content s =>
      have h' : noConfirmTool rest = true := by
        simpa [noConfirmTool] using hpre
      simp [runBody, ih h']
    | toolCall t =>
      have h1 : t.requiresConfirmation = false := by
        simp [noConfirmTool] at hpre
        exact hpre.1
      have h2 : noConfirmTool rest = true := by
        simp [noConfirmTool] at hpre
        exact hpre.2
      simp [runBody, h1, ih h2]
    | delegate mid fc body =>
      have h' : noConfirmTool rest = true := by
        simpa [noConfirmTool] using hpre
      simp [runBody, ih h', List.append_assoc]

theorem noConfirm_paused_none (acts : List Action)
    (h : noConfirmTool acts = true) : (runBody acts).paused = none := by
  induction acts with
  | nil => rfl
  | cons a rest ih =>
    cases a with
    | content s =>
      have h' : noConfirmTool rest = true := by simpa [noConfirmTool] using h
      simp [runBody, ih h']
    | toolCall t =>
      have h1 : t.requiresConfirmation = false := by
        simp [noConfirmTool] at h
        exact h.1
      have h2 : noConfirmTool rest = true := by
        simp [noConfirmTool] at h
        exact h.2
      simp [runBody, h1, ih h2]
    | delegate mid fc body =>
      have h' : noConfirmTool rest = true := by simpa [noConfirmTool] using h
      simp [runBody, ih h']

theorem runBody_invoked_sub (acts : List Action) :
    ∀ n ∈ (runBody acts).invoked, n ∈ actionToolNames acts := by
  induction acts with
  | nil => simp [runBody, actionToolNames]
  | cons a rest ih =>
    cases a with
    | content s =>
      intro n hn
      rw [runBody] at hn
      exact (ih n hn)
    | toolCall t =>
      intro n hn
      by_cases hc : t.requiresConfirmation = true
      · simp [runBody, hc] at hn
      · rw [runBody, if_neg (by simp [hc])] at hn
        simp only [List.mem_cons] at hn
        rcases hn with h | h
        · simp [actionToolNames, h]
        · simp [actionToolNames, ih n h]
    | delegate mid fc body =>
      intro n hn
      rw [runBody] at hn
      simp only [List.mem_cons] at hn
      rcases hn with h | h
      · simp [actionToolNames, h]
      · simp [actionToolNames, ih n h]

/-- C2: a run whose actions contain exactly one confirmation-gated tool call
pauses: its status becomes `paused`, the pending tool and its continuation are
recorded and the stream ends in `run_paused`.  Resuming with `confirmed=true`
yields a `tool_call_completed` whose result is the tool's direct-call result
and the tool function is invoked; resuming with `confirmed=false` yields the
skipped-call result and the tool function is never invoked; in both cases the
resumed run ends in `run_completed`. -/
theorem confirmation_pause_resume (pre post : List Action) (t : ToolDef)
    (hc : t.requiresConfirmation = true)
    (hpre : noConfirmTool pre = true)
    (hpost : noConfirmTool post = true)
    (hname : t.name ∉ actionToolNames post) :
    runStatus (pre ++ .toolCall t :: post) = .paused
    ∧ (runBody (pre ++ .toolCall t :: post)).paused = some (t, post)
    ∧ (runStream (pre ++ .toolCall t :: post)).getLast?
        = some (teamEvt .run_paused)
    ∧ firstToolCompleted (continueRun t post true).1
        = some (toolCompleted .team t (directCall t))
    ∧ t.name ∈ (continueRun t post true).2
    ∧ (continueRun t post true).1.getLast? = some (teamEvt .run_completed)
    ∧ firstToolCompleted (continueRun t post false).1
        = some (toolCompleted .team t (skippedResult t.name))
    ∧ t.name ∉ (continueRun t post false).2
    ∧ (continueRun t post false).1.getLast? = some (teamEvt .run_completed) := by
  have hmid : runBody (Action.toolCall t :: post) = ⟨[], [], some (t, post)⟩ := by
    simp [runBody, hc]
  have hall := runBody_append_noConfirm pre (Action.toolCall t :: post) hpre
  rw [hmid] at hall
  have hpaused : (runBody (pre ++ Action.toolCall t :: post)).paused
      = some (t, post) := by rw [hall]
  have hpostnone := noConfirm_paused_none post hpost
  refine ⟨?_, hpaused, ?_, ?_, ?_, ?_, ?_, ?_, ?_⟩
  · simp [runStatus, hpaused]
  · simp only [runStream, hpaused, Option.isSome_some, if_pos]
    exact getLast?_cons_append_singleton _ _ _
  · have h1 : ((teamEvt .run_continued).kind == EventKind.tool_call_completed)
        = false := rfl
    have h2 : ((toolStarted .team t).kind == EventKind.tool_call_completed)
        = false := rfl
    have h3 : ∀ res, ((toolCompleted .team t res).kind
        == EventKind.tool_call_completed) = true := fun _ => rfl
    simp [firstToolCompleted, continueRun, List.find?, h1, h2, h3]
  · simp [continueRun]
  · simp only [continueRun, hpostnone, Option.isSome_none]
    show (_ :: _ :: _ :: (_ ++ [_])).getLast? = _
    rw [← List.cons_append, ← List.cons_append, ← List.cons_append]
    exact List.getLast?_concat _
  · have h1 : ((teamEvt .run_continued).kind == EventKind.tool_call_completed)
        = false := rfl
    have h2 : ((toolStarted .team t).kind == EventKind.tool_call_completed)
        = false := rfl
    have h3 : ∀ res, ((toolCompleted .team t res).kind
        == EventKind.tool_call_completed) = true := fun _ => rfl
    simp [firstToolCompleted, continueRun, List.find?, h1, h2, h3]
  · simp only [continueRun, if_neg (by simp : ¬(false = true)), List.nil_append]
    intro hmem
    exact hname (runBody_invoked_sub post t.name hmem)
  · simp only [continueRun, hpostnone, Option.isSome_none]
    show (_ :: _ :: _ :: (_ ++ [_])).getLast? = _
    rw [← List.cons_append, ← List.cons_append, ← List.cons_append]
    exact List.getLast?_concat _

/-- A concrete confirmation-gated tool, as in the user-confirmation
integration test. -/
def weatherTool : ToolDef :=
  ⟨"get_the_weather", "Tokyo", true,
    fun c => "It is currently 70 degrees and cloudy in " ++ c⟩

theorem confirmation_pause_resume_witness :
    (weatherTool.requiresConfirmation = true
      ∧ noConfirmTool ([] : List Action) = true
      ∧ weatherTool.name ∉ actionToolNames [])
    ∧ runStatus ([] ++ Action.toolCall weatherTool :: []) = .paused
    ∧ firstToolCompleted (continueRun weatherTool [] true).1
        = some (toolCompleted .team weatherTool (directCall weatherTool)) := by
  have h := confirmation_pause_resume [] [] weatherTool rfl rfl rfl
    (by simp [actionToolNames])
  exact ⟨⟨rfl, rfl, by simp [actionToolNames]⟩, h.1, h.2.2.2.1⟩

end Agno.Events

namespace Agno.Sessions

theorem upsert_ids_of_mem (store : List SessionRecord) (s : SessionRecord)
    (hmem : store.any (fun r => r.session_id = s.session_id) = true) :
    storeIds (upsert_session store s) = storeIds store := by
  simp only [upsert_session, hmem, if_true, storeIds, List.map_map]
  apply List.map_congr_left
  intro r _
  by_cases h : r.session_id = s.session_id
  · simp [h, mergeInto, Function.comp]
  · simp [h, Function.comp]

theorem find?_map_merge (s : SessionRecord) :
    ∀ (store : List SessionRecord) (old : SessionRecord),
    store.find? (fun r => r.session_id == s.session_id) = some old →
    (store.map (fun r =>
      if r.session_id = s.session_id then mergeInto r s else r)).find?
        (fun r => r.session_id == s.session_id) = some (mergeInto old s) := by
  intro store
  induction store with
  | nil => intro old h; simp at h
  | cons r rest ih =>
    intro old h
    by_cases hr : r.session_id = s.session_id
    · have hb : (r.session_id == s.session_id) = true := by simp [hr]
      rw [List.find?_cons_of_pos
        (p := fun x : SessionRecord => x.session_id == s.session_id) _ hb] at h
      injection h with h
      subst h
      have hb2 : ((mergeInto r s).session_id == s.session_id) = true := by
        simp [mergeInto, hr]
      simp only [List.map_cons, if_pos hr]
      rw [List.find?_cons_of_pos
        (p := fun x : SessionRecord => x.session_id == s.session_id) _ hb2]
    · have hb : (r.session_id == s.session_id) = false := by simp [hr]
      rw [List.find?_cons_of_neg
        (p := fun x : SessionRecord => x.session_id == s.session_id) _
        (by simp [hb])] at h
      simp only [List.map_cons, if_neg hr]
      rw [List.find?_cons_of_neg
        (p := fun x : SessionRecord => x.session_id == s.session_id) _
        (by simp [hb])]
      exact ih old h

theorem countP_sid_eq_zero (x : String) (store : List SessionRecord)
    (hx : x ∉ storeIds store) :
    store.countP (fun r => r.session_id == x) = 0 := by
  rw [List.countP_eq_zero]
  intro r hr
  simp only [beq_iff_eq]
  intro hrx
  exact hx (by
    simpa [storeIds, hrx] using List.mem_map_of_mem (fun r => r.session_id) hr)

theorem countP_sid_eq_one (x : String) :
    ∀ (store : List SessionRecord), (storeIds store).Nodup →
    ∀ old ∈ store, old.session_id = x →
    store.countP (fun r => r.session_id == x) = 1 := by
  intro store
  induction store with
  | nil => intro _ old h; simp at h
  | cons r rest ih =>
    intro hnd old hold hx
    have hnd' : (r.session_id :: storeIds rest).Nodup := by
      simpa only [storeIds, List.map_cons] using hnd
    have hcomp := List.nodup_cons.mp hnd'
    by_cases hr : r.session_id = x
    · have hnotin : x ∉ storeIds rest := by
        have := hcomp.1
        rwa [hr] at this
      simp [List.countP_cons, hr, countP_sid_eq_zero x rest hnotin]
    · rcases List.mem_cons.mp hold with h | h
      · exact absurd (h ▸ hx) hr
      · simp [List.countP_cons, hr, ih hcomp.2 old h hx]

theorem upsert_ids_nodup (store : List SessionRecord) (s : SessionRecord)
    (hnd : (storeIds store).Nodup) :
    (storeIds (upsert_session store s)).Nodup := by
  by_cases h : store.any (fun r => r.session_id = s.session_id) = true
  · rw [upsert_ids_of_mem store s h]
    exact hnd
  · have heq : upsert_session store s = store ++ [s] := by
      unfold upsert_session
      rw [if_neg h]
    rw [heq]
    have hid : s.session_id ∉ storeIds store := by
      intro hmem
      apply h
      simp only [List.any_eq_true]
      obtain ⟨r, hr, hrx⟩ := List.mem_map.mp hmem
      exact ⟨r, hr, by simp [hrx]⟩
    have hids : storeIds (store ++ [s]) = storeIds store ++ [s.session_id] := by
      simp [storeIds]
    rw [hids]
    exact ((List.perm_append_singleton _ _).nodup_iff).mpr
      (List.nodup_cons.mpr ⟨hid, hnd⟩)

theorem rename_ids (store : List SessionRecord) (sid : String)
    (ty : SessionType) (nm : String) :
    storeIds (rename_session store sid ty nm) = storeIds store := by
  simp only [rename_session, storeIds, List.map_map]
  apply List.map_congr_left
  intro r _
  by_cases h : r.session_id = sid ∧ r.session_type = ty
  · simp [h, Function.comp]
  · simp [h, Function.comp]

theorem delete_ids_nodup (store : List SessionRecord) (sid : String)
    (hnd : (storeIds store).Nodup) :
    (storeIds (delete_session store sid)).Nodup :=
  List.Nodup.sublist ((List.filter_sublist _).map _) hnd

/-- C4: `upsert_session` on a `session_id` already present overwrites the
mutable fields of the existing row (session data, metadata, component data,
runs) while keeping the row identity and creation time, never creates a second
row with that id (the store keeps its length and the id occurs exactly once),
and `session_id` stays unique in the store after upsert (either branch),
rename and delete. -/
theorem upsert_merges_never_duplicates (store : List SessionRecord)
    (s old : SessionRecord)
    (hnd : (storeIds store).Nodup)
    (hfind : store.find? (fun r => r.session_id == s.session_id) = some old) :
    (upsert_session store s).length = store.length
    ∧ (storeIds (upsert_session store s)).Nodup
    ∧ (upsert_session store s).countP
        (fun r => r.session_id == s.session_id) = 1
    ∧ (upsert_session store s).find? (fun r => r.session_id == s.session_id)
        = some (mergeInto old s)
    ∧ (mergeInto old s).session_data = s.session_data
    ∧ (mergeInto old s).metadata = s.metadata
    ∧ (mergeInto old s).component_data = s.component_data
    ∧ (mergeInto old s).runs = s.runs
    ∧ (mergeInto old s).updated_at = s.updated_at
    ∧ (mergeInto old s).session_id = old.session_id
    ∧ (mergeInto old s).created_at = old.created_at
    ∧ (∀ s2, (storeIds (upsert_session store s2)).Nodup)
    ∧ (∀ sid ty nm, (storeIds (rename_session store sid ty nm)).Nodup)
    ∧ (∀ sid, (storeIds (delete_session store sid)).Nodup) := by
  have hmemold : old ∈ store := List.mem_of_find?_eq_some hfind
  have hidold : old.session_id = s.session_id := by
    have := List.find?_some hfind
    simpa using this
  have hmem : store.any (fun r => r.session_id = s.session_id) = true := by
    simp only [List.any_eq_true]
    exact ⟨old, hmemold, by simp [hidold]⟩
  have hbranch : upsert_session store s = store.map (fun r =>
      if r.session_id = s.session_id then mergeInto r s else r) := by
    simp [upsert_session, hmem]
  refine ⟨?_, upsert_ids_nodup store s hnd, ?_, ?_, rfl, rfl, rfl, rfl, rfl,
    rfl, rfl, fun s2 => upsert_ids_nodup store s2 hnd,
    fun sid ty nm => by rw [rename_ids]; exact hnd,
    fun sid => delete_ids_nodup store sid hnd⟩
  · rw [hbranch, List.length_map]
  · have hnd2 : (storeIds (upsert_session store s)).Nodup :=
      upsert_ids_nodup store s hnd
    have hfound : (upsert_session store s).find?
        (fun r => r.session_id == s.session_id) = some (mergeInto old s) := by
      rw [hbranch]
      exact find?_map_merge s store old hfind
    have hmem2 : mergeInto old s ∈ upsert_session store s :=
      List.mem_of_find?_eq_some hfound
    exact countP_sid_eq_one s.session_id (upsert_session store s) hnd2
      (mergeInto old s) hmem2 (by simp [mergeInto, hidold])
  · rw [hbranch]
    exact find?_map_merge s store old hfind

/-- Concrete sessions for the witnesses. -/
def recA : SessionRecord :=
  { session_id := "s1", session_type := .agent, user_id := some "u1",
    session_data := [("session_name", "First")], created_at := 10,
    updated_at := 10 }

/-- A second concrete session. -/
def recB : SessionRecord :=
  { session_id := "s2", session_type := .team, user_id := some "u2",
    created_at := 20, updated_at := 20 }

/-- An update of `recA` carrying new mutable fields. -/
def recA2 : SessionRecord :=
  { session_id := "s1", session_type := .agent, user_id := some "u1",
    session_data := [("session_name", "Updated")], metadata := [("k", "v")],
    runs := ["run1"], created_at := 99, updated_at := 30 }

theorem upsert_merges_never_duplicates_witness :
    ((storeIds [recA, recB]).Nodup
      ∧ [recA, recB].find? (fun r => r.session_id == recA2.session_id)
          = some recA)
    ∧ (upsert_session [recA, recB] recA2).length = ([recA, recB] : List _).length
    ∧ (upsert_session [recA, recB] recA2).countP
        (fun r => r.session_id == recA2.session_id) = 1 := by
  have h := upsert_merges_never_duplicates [recA, recB] recA2 recA
    (by decide) (by decide)
  exact ⟨⟨by decide, by decide⟩, h.1, h.2.2.1⟩

/-- C5: `get_session` with the correct `session_id` but a `session_type` that
does not match the stored row, or a `user_id` filter that does not match,
returns `none` — it is a total function, so no error is raised. -/
theorem get_session_mismatch (store : List SessionRecord) (sid : String)
    (r : SessionRecord) (stype : SessionType) (u2 : String)
    (hfind : store.find? (fun x => x.session_id == sid) = some r) :
    (stype ≠ r.session_type →
      get_session store sid stype none = none
      ∧ get_session store sid stype (some u2) = none)
    ∧ (r.user_id ≠ some u2 → get_session store sid stype (some u2) = none) := by
  constructor
  · intro hne
    unfold get_session
    rw [hfind]
    have : r.session_type ≠ stype := fun h => hne h.symm
    simp [this]
  · intro hne
    unfold get_session
    rw [hfind]
    by_cases ht : r.session_type = stype
    · simp [ht, hne]
    · simp [ht]

theorem get_session_mismatch_witness :
    ([recA, recB].find? (fun x => x.session_id == "s1") = some recA
      ∧ SessionType.team ≠ recA.session_type
      ∧ recA.user_id ≠ some "wrong_user")
    ∧ get_session [recA, recB] "s1" .team none = none
    ∧ get_session [recA, recB] "s1" .agent (some "wrong_user") = none := by
  have h := get_session_mismatch [recA, recB] "s1" recA .team "wrong_user"
    (by decide)
  have h2 := get_session_mismatch [recA, recB] "s1" recA .agent "wrong_user"
    (by decide)
  exact ⟨⟨by decide, by decide, by decide⟩, (h.1 (by decide)).1,
    h2.2 (by decide)⟩

theorem paginate_split (L : List String) (h5 : L.length = 5) (hnd : L.Nodup) :
    (L.take 2).length = 2 ∧ ((L.drop 2).take 2).length = 2
    ∧ (∀ x ∈ L.take 2, x ∉ (L.drop 2).take 2)
    ∧ (L.take 2 ++ (L.drop 2).take 2).Nodup
    ∧ (L.take 2 ++ (L.drop 2).take 2).length = 4
    ∧ (∀ x ∈ L.take 2 ++ (L.drop 2).take 2, x ∈ L) := by
  have h1 : (L.take 2).length = 2 := by rw [List.length_take]; omega
  have h3 : ((L.drop 2).take 2).length = 2 := by
    rw [List.length_take, List.length_drop]; omega
  have hnd2 : (L.take 2 ++ L.drop 2).Nodup := by
    rw [List.take_append_drop]; exact hnd
  rw [List.nodup_append] at hnd2
  obtain ⟨hndA, hndB, hdisj⟩ := hnd2
  have hsubB : ∀ x ∈ (L.drop 2).take 2, x ∈ L.drop 2 :=
    fun x hx => (List.take_sublist 2 _).subset hx
  refine ⟨h1, h3, ?_, ?_, ?_, ?_⟩
  · intro x hx1 hx2
    exact hdisj hx1 (hsubB x hx2)
  · rw [List.nodup_append]
    exact ⟨hndA, List.Nodup.sublist (List.take_sublist 2 _) hndB,
      fun x hx1 hx2 => hdisj hx1 (hsubB x hx2)⟩
  · rw [List.length_append, h1, h3]
  · intro x hx
    rcases List.mem_append.mp hx with h | h
    · exact (List.take_sublist 2 L).subset h
    · exact (List.drop_sublist 2 L).subset (hsubB x h)

theorem get_sessions_pages (store : List SessionRecord) (stype : SessionType)
    (sortKey : SessionRecord → Nat) :
    get_sessions store stype sortKey 2 1
      = ((store.filter (fun r => r.session_type == stype)).mergeSort
          (fun a b => sortKey a ≤ sortKey b)).take 2
    ∧ get_sessions store stype sortKey 2 2
      = (((store.filter (fun r => r.session_type == stype)).mergeSort
          (fun a b => sortKey a ≤ sortKey b)).drop 2).take 2 := by
  constructor <;> simp [get_sessions]

/-- C7: for a fixed sort key and a store holding 5 distinct sessions of the
queried type, `get_sessions` with `limit=2` returns pages 1 and 2 of length 2
each, with disjoint session-id sets whose union has exactly 4 ids, all drawn
from the 5 stored ids. -/
theorem pagination_disjoint_covering (store : List SessionRecord)
    (stype : SessionType) (sortKey : SessionRecord → Nat)
    (hnd : (storeIds store).Nodup)
    (h5 : (store.filter (fun r => r.session_type == stype)).length = 5) :
    (get_sessions store stype sortKey 2 1).length = 2
    ∧ (get_sessions store stype sortKey 2 2).length = 2
    ∧ (∀ x ∈ storeIds (get_sessions store stype sortKey 2 1),
        x ∉ storeIds (get_sessions store stype sortKey 2 2))
    ∧ (storeIds (get_sessions store stype sortKey 2 1)
        ++ storeIds (get_sessions store stype sortKey 2 2)).Nodup
    ∧ (storeIds (get_sessions store stype sortKey 2 1)
        ++ storeIds (get_sessions store stype sortKey 2 2)).length = 4
    ∧ (∀ x ∈ storeIds (get_sessions store stype sortKey 2 1)
        ++ storeIds (get_sessions store stype sortKey 2 2),
        x ∈ storeIds (store.filter (fun r => r.session_type == stype))) := by
  obtain ⟨hp1, hp2⟩ := get_sessions_pages store stype sortKey
  have hperm : (((store.filter (fun r => r.session_type == stype)).mergeSort
      (fun a b => sortKey a ≤ sortKey b))).Perm
      (store.filter (fun r => r.session_type == stype)) :=
    List.mergeSort_perm _ _
  have hidsF : (storeIds (store.filter (fun r => r.session_type == stype))).Nodup :=
    List.Nodup.sublist ((List.filter_sublist _).map _) hnd
  have hpermIds : (storeIds ((store.filter (fun r => r.session_type == stype)).mergeSort
      (fun a b => sortKey a ≤ sortKey b))).Perm
      (storeIds (store.filter (fun r => r.session_type == stype))) :=
    hperm.map _
  have hidsL := (hpermIds.nodup_iff).mpr hidsF
  have hlenIds : (storeIds ((store.filter (fun r => r.session_type == stype)).mergeSort
      (fun a b => sortKey a ≤ sortKey b))).length = 5 := by
    unfold storeIds
    rw [List.length_map, hperm.length_eq, h5]
  obtain ⟨c1, c2, c3, c4, c5, c6⟩ := paginate_split _ hlenIds hidsL
  have hm1 : storeIds (get_sessions store stype sortKey 2 1)
      = (storeIds ((store.filter (fun r => r.session_type == stype)).mergeSort
          (fun a b => sortKey a ≤ sortKey b))).take 2 := by
    rw [hp1]; unfold storeIds; rw [List.map_take]
  have hm2 : storeIds (get_sessions store stype sortKey 2 2)
      = ((storeIds ((store.filter (fun r => r.session_type == stype)).mergeSort
          (fun a b => sortKey a ≤ sortKey b))).drop 2).take 2 := by
    rw [hp2]; unfold storeIds; rw [List.map_take, List.map_drop]
  refine ⟨?_, ?_, ?_, ?_, ?_, ?_⟩
  · rw [hp1, List.length_take, hperm.length_eq, h5]
    rfl
  · rw [hp2, List.length_take, List.length_drop, hperm.length_eq, h5]
    rfl
  · rw [hm1, hm2]
    exact c3
  · rw [hm1, hm2]
    exact c4
  · rw [hm1, hm2]
    exact c5
  · intro x hx
    rw [hm1, hm2] at hx
    have hxL := c6 x hx
    exact (hpermIds.mem_iff).mp hxL

/-- Five distinct concrete agent sessions for the pagination witness. -/
def fiveSessions : List SessionRecord :=
  [{ session_id := "p0", session_type := .agent, created_at := 100 },
   { session_id := "p1", session_type := .agent, created_at := 101 },
   { session_id := "p2", session_type := .agent, created_at := 102 },
   { session_id := "p3", session_type := .agent, created_at := 103 },
   { session_id := "p4", session_type := .agent, created_at := 104 }]

theorem pagination_disjoint_covering_witness :
    ((storeIds fiveSessions).Nodup
      ∧ (fiveSessions.filter (fun r => r.session_type == .agent)).length = 5)
    ∧ (get_sessions fiveSessions .agent (fun r => r.created_at) 2 1).length = 2
    ∧ (get_sessions fiveSessions .agent (fun r => r.created_at) 2 2).length = 2 := by
  have h := pagination_disjoint_covering fiveSessions .agent
    (fun r => r.created_at) (by decide) (by decide)
  exact ⟨⟨by decide, by decide⟩, h.1, h.2.1⟩

end Agno.Sessions

namespace Agno.Schema

theorem buildProps_keys (descrs : List (String × String)) :
    ∀ (hints : List (String × PyHint)),
    ∀ k ∈ (buildProps hints descrs).map Prod.fst,
      k ≠ "return" ∧ k ∈ hints.map Prod.fst := by
  intro hints
  induction hints with
  | nil => simp [buildProps]
  | cons kh rest ih =>
    obtain ⟨k0, h0⟩ := kh
    intro k hk
    by_cases hret : k0 = "return"
    · rw [buildProps, if_pos hret] at hk
      have := ih k hk
      exact ⟨this.1, by simp [this.2]⟩
    · rw [buildProps, if_neg hret] at hk
      cases hpp : processParamWithDescr h0 k0 descrs with
      | error e =>
        rw [hpp] at hk
        have := ih k hk
        exact ⟨this.1, by simp [this.2]⟩
      | ok v =>
        cases v with
        | none =>
          rw [hpp] at hk
          have := ih k hk
          exact ⟨this.1, by simp [this.2]⟩
        | some s =>
          rw [hpp] at hk
          simp only [List.map_cons, List.mem_cons] at hk
          rcases hk with h | h
          · subst h
            exact ⟨hret, by simp⟩
          · have := ih k h
            exact ⟨this.1, by simp [this.2]⟩

theorem buildProps_mem_iff (descrs : List (String × String)) :
    ∀ (hints : List (String × PyHint)), (hints.map Prod.fst).Nodup →
    ∀ k h, (k, h) ∈ hints → k ≠ "return" →
    (k ∈ (buildProps hints descrs).map Prod.fst ↔
      ∃ s, processParamWithDescr h k descrs = Except.ok (some s)) := by
  intro hints
  induction hints with
  | nil =>
    intro _ k h hmem
    simp at hmem
  | cons kh0 rest ih =>
    obtain ⟨k0, h0⟩ := kh0
    intro hnd k h hmem hret
    have hnd' : (k0 :: rest.map Prod.fst).Nodup := by
      simpa only [List.map_cons] using hnd
    have hndc := List.nodup_cons.mp hnd'
    rcases List.mem_cons.mp hmem with heq | hmem'
    · have hpair : k = k0 ∧ h = h0 := by
        constructor <;> [exact congrArg Prod.fst heq; exact congrArg Prod.snd heq]
      obtain ⟨rfl, rfl⟩ := hpair
      have hnotin : k ∉ rest.map Prod.fst := hndc.1
      rw [buildProps, if_neg hret]
      cases hpp : processParamWithDescr h k descrs with
      | error e =>
        constructor
        · intro hmemP
          exact absurd ((buildProps_keys descrs rest k hmemP).2) hnotin
        · intro ⟨s, hs⟩
          exact absurd hs (by simp)
      | ok v =>
        cases v with
        | none =>
          constructor
          · intro hmemP
            exact absurd ((buildProps_keys descrs rest k hmemP).2) hnotin
          · intro ⟨s, hs⟩
            exact absurd hs (by simp)
        | some s =>
          constructor
          · intro _
            exact ⟨s, rfl⟩
          · intro _
            simp
    · have hkrest : k ∈ rest.map Prod.fst := by
        simpa using List.mem_map_of_mem Prod.fst hmem'
      have hkne : k ≠ k0 := fun hkk => hndc.1 (hkk ▸ hkrest)
      have htail := ih hndc.2 k h hmem' hret
      by_cases hret0 : k0 = "return"
      · rw [buildProps, if_pos hret0]
        exact htail
      · rw [buildProps, if_neg hret0]
        cases hpp : processParamWithDescr h0 k0 descrs with
        | error e => exact htail
        | ok v =>
          cases v with
          | none => exact htail
          | some s0 =>
            simp only [List.map_cons, List.mem_cons]
            constructor
            · intro hin
              rcases hin with h1 | h1
              · exact absurd h1 hkne
              · exact htail.mp h1
            · intro h1
              exact Or.inr (htail.mpr h1)

/-- C8: `get_json_schema` is a total function (every per-parameter exception is
caught), its result is an object carrying `"type": "object"` and a
`"properties"` object whose keys are a subset of the input hint names with
`"return"` always excluded; and a parameter is present in `"properties"`
exactly when its own processing succeeds with a schema, so an exception raised
while processing one parameter omits only that parameter. -/
theorem get_json_schema_shape (hints : List (String × PyHint))
    (descrs : List (String × String)) (strict : Bool)
    (hnd : (hints.map Prod.fst).Nodup) :
    ∃ kvs, get_json_schema hints descrs strict = Json.obj kvs
    ∧ lookupKey kvs "type" = some (Json.str "object")
    ∧ ∃ P, lookupKey kvs "properties" = some (Json.obj P)
      ∧ (∀ k ∈ P.map Prod.fst, k ≠ "return" ∧ k ∈ hints.map Prod.fst)
      ∧ (∀ k h, (k, h) ∈ hints → k ≠ "return" →
          (k ∈ P.map Prod.fst ↔
            ∃ s, processParamWithDescr h k descrs = Except.ok (some s))) := by
  refine ⟨_, rfl, ?_, buildProps hints descrs, ?_,
    buildProps_keys descrs hints, buildProps_mem_iff descrs hints hnd⟩
  · rfl
  · rfl

theorem get_json_schema_shape_witness :
    (([("city", PyHint.str), ("return", PyHint.str)].map Prod.fst).Nodup)
    ∧ ∃ kvs, get_json_schema [("city", PyHint.str), ("return", PyHint.str)]
        [] false = Json.obj kvs
      ∧ lookupKey kvs "type" = some (Json.str "object") := by
  obtain ⟨kvs, h1, h2, _⟩ := get_json_schema_shape
    [("city", PyHint.str), ("return", PyHint.str)] [] false (by decide)
  exact ⟨by decide, kvs, h1, h2⟩

/-- Whether a hint has the shape the Optional-unwrap check matches: a Union of
exactly two arguments one of which is `NoneType`.  Python's `typing` flattens
nested unions, so a real `Optional[T]` never has a `T` of this shape itself. -/
def isOptionalShape : PyHint → Bool
  | .unionOf args => args.length == 2 && args.any isNoneHint
  | _ => false

/-- C9: for a parameter annotated `Optional[T]` (a Union of exactly `T` and
`NoneType`, in either argument order), `get_json_schema` processes the
parameter exactly as if it were annotated plainly `T`: the null alternative is
dropped, the emitted property schema (including its description handling) is
identical, and no marker of optionality remains. -/
theorem optional_unwrap (t : PyHint) (h1 : isNoneHint t = false)
    (h2 : isOptionalShape t = false) :
    processParam (.unionOf [t, .noneType]) = get_json_schema_for_arg t
    ∧ processParam (.unionOf [.noneType, t]) = get_json_schema_for_arg t
    ∧ processParam (.unionOf [t, .noneType]) = processParam t
    ∧ processParam (.unionOf [.noneType, t]) = processParam t
    ∧ (∀ name descrs,
        processParamWithDescr (.unionOf [t, .noneType]) name descrs
          = processParamWithDescr t name descrs) := by
  have hcond1 : ([t, PyHint.noneType].length = 2
      ∧ [t, PyHint.noneType].any isNoneHint) := by
    simp [isNoneHint]
  have hcond2 : ([PyHint.noneType, t].length = 2
      ∧ [PyHint.noneType, t].any isNoneHint) := by
    simp [isNoneHint]
  have hp : (!isNoneHint t) = true := by rw [h1]; rfl
  have hq : (!isNoneHint PyHint.noneType) = false := rfl
  have ha : processParam (.unionOf [t, .noneType]) = get_json_schema_for_arg t := by
    simp only [processParam]
    rw [if_pos hcond1]
    simp only [List.find?, hp]
  have hb : processParam (.unionOf [.noneType, t]) = get_json_schema_for_arg t := by
    simp only [processParam]
    rw [if_pos hcond2]
    simp only [List.find?, hp, hq]
  have hc : processParam t = get_json_schema_for_arg t := by
    cases t with
    | unionOf args =>
      simp only [processParam]
      rw [if_neg]
      intro hcon
      simp only [isOptionalShape, Bool.and_eq_false_iff] at h2
      rcases h2 with h | h
      · simp [hcon.1] at h
      · rw [hcon.2] at h
        exact absurd h (by simp)
    | int => rfl
    | str => rfl
    | bool => rfl
    | noneType => rfl
    | named n => rfl
    | listOf args => rfl
    | dictOf args => rfl
    | enumOf values => rfl
    | modelOf skvs => rfl
    | dataclassOf fields => rfl
    | special => rfl
  refine ⟨ha, hb, ha.trans hc.symm, hb.trans hc.symm, ?_⟩
  intro name descrs
  simp only [processParamWithDescr]
  rw [ha.trans hc.symm]

theorem optional_unwrap_witness :
    (isNoneHint PyHint.str = false ∧ isOptionalShape PyHint.str = false)
    ∧ processParam (.unionOf [PyHint.str, .noneType]) = processParam PyHint.str := by
  have h := optional_unwrap PyHint.str rfl rfl
  exact ⟨⟨rfl, rfl⟩, h.2.2.1⟩

theorem except_bind_ok {α β : Type} {e : Except String α} {f : α → Except String β}
    {b : β} (h : (e >>= f) = .ok b) : ∃ a, e = .ok a ∧ f a = .ok b := by
  cases e with
  | error msg =>
    simp only [bind, Except.bind] at h
    exact absurd h (by simp)
  | ok a =>
    refine ⟨a, rfl, ?_⟩
    simpa only [bind, Except.bind] using h

theorem jsonHasKey_erase (kvs : List (String × Json)) (k : String) :
    jsonHasKey (.obj (dictErase kvs k)) k = false := by
  simp only [jsonHasKey, dictErase]
  rw [List.any_eq_false]
  intro kv hkv
  have h2 := (List.mem_filter.mp hkv).2
  simp at h2 ⊢
  exact h2

/-- C10 counterexample: `inline_pydantic_schema` does not return on every dict
input — a `$ref` resolving to a non-dict definition makes the final
`"$defs" in result` membership test raise `TypeError`, exactly as in Python,
so the claim's universally quantified "returns a schema with no top-level
$defs key" fails at this input. -/
theorem inline_pydantic_schema_raises :
    inline_pydantic_schema (.obj [("$ref", .str "#/$defs/A"),
      ("$defs", .obj [("A", .num 5)])]) = .error "TypeError" := by
  have h1 : pyStartsWith "#/$defs/A" "#/$defs/" = true := by decide
  have h2 : pySplitSlash "#/$defs/A" = ["#", "$defs", "A"] := by decide
  simp [inline_pydantic_schema, defsOf, lookupKey, List.find?, dictErase,
    resolveDefinitions, resolveDefinitionsAux, processSchema, processEntries,
    resolveRef, h1, h2, pyContains, bind, Except.bind, typeObjectJson]

/-- C10 (amended): on every dict input on which `inline_pydantic_schema`
returns without raising, the result carries no top-level `$defs` key; and
every dict whose `$ref` entry is processed is replaced wholesale by
`resolve_ref`'s answer: the definition registered under the ref's last
`/`-component when the ref starts with `#/$defs/` and that name is among the
definitions in scope, and `{"type": "object"}` when the ref is external or
the definition is missing. -/
theorem inline_schema_no_defs_and_ref_resolution :
    (∀ j r, inline_pydantic_schema j = .ok r → jsonHasKey r "$defs" = false)
    ∧ (∀ kvs defs refv, lookupKey kvs "$ref" = some refv →
        processSchema (.obj kvs) defs = resolveRef refv defs)
    ∧ (∀ r defs d, pyStartsWith r "#/$defs/" = true →
        lookupKey defs ((pySplitSlash r).getLastD "") = some d →
        resolveRef (.str r) defs = .ok d)
    ∧ (∀ r defs, pyStartsWith r "#/$defs/" = true →
        lookupKey defs ((pySplitSlash r).getLastD "") = none →
        resolveRef (.str r) defs = .ok typeObjectJson)
    ∧ (∀ r defs, pyStartsWith r "#/$defs/" = false →
        resolveRef (.str r) defs = .ok typeObjectJson) := by
  refine ⟨?_, ?_, ?_, ?_, ?_⟩
  · intro j r h
    cases j with
    | obj kvs =>
      simp only [inline_pydantic_schema] at h
      obtain ⟨defs0, hd0, h⟩ := except_bind_ok h
      obtain ⟨resolved, hres, h⟩ := except_bind_ok h
      obtain ⟨result, hproc, h⟩ := except_bind_ok h
      obtain ⟨hasDefs, hcontains, h⟩ := except_bind_ok h
      cases hasDefs with
      | false =>
        simp only [Bool.false_eq_true, if_false] at h
        injection h with h
        subst h
        cases result with
        | obj kvs2 =>
          have hc2 : (kvs2.any fun kv => kv.1 = "$defs") = false := by
            simpa [pyContains] using hcontains
          simpa [jsonHasKey] using hc2
        | null => rfl
        | bool b => rfl
        | num n => rfl
        | str s => rfl
        | arr xs => rfl
      | true =>
        simp only [if_true] at h
        cases result with
        | obj kvs2 =>
          simp only [pyDelKey] at h
          injection h with h
          subst h
          exact jsonHasKey_erase kvs2 "$defs"
        | null => exact absurd h (by simp [pyDelKey])
        | bool b => exact absurd h (by simp [pyDelKey])
        | num n => exact absurd h (by simp [pyDelKey])
        | str s => exact absurd h (by simp [pyDelKey])
        | arr xs => exact absurd h (by simp [pyDelKey])
    | null =>
      injection h with h
      subst h
      rfl
    | bool b =>
      injection h with h
      subst h
      rfl
    | num n =>
      injection h with h
      subst h
      rfl
    | str s =>
      injection h with h
      subst h
      rfl
    | arr xs =>
      injection h with h
      subst h
      rfl
  · intro kvs defs refv h
    simp only [processSchema, h]
  · intro r defs d hstart hlook
    simp only [resolveRef]
    rw [if_pos hstart]
    simp only [lookupKey] at hlook
    cases hfind : defs.find? (fun kv => kv.1 = (pySplitSlash r).getLastD "") with
    | some kv =>
      rw [hfind] at hlook
      injection hlook with hlook
      simp only [hfind]
      rw [hlook]
    | none =>
      rw [hfind] at hlook
      exact absurd hlook (by simp)
  · intro r defs hstart hlook
    simp only [resolveRef]
    rw [if_pos hstart]
    simp only [lookupKey] at hlook
    cases hfind : defs.find? (fun kv => kv.1 = (pySplitSlash r).getLastD "") with
    | some kv =>
      rw [hfind] at hlook
      exact absurd hlook (by simp)
    | none =>
      simp only [hfind]
  · intro r defs hstart
    simp only [resolveRef]
    rw [if_neg (by simp [hstart])]

theorem inline_schema_no_defs_witness :
    (inline_pydantic_schema (Json.obj [("type", Json.str "object")])
        = Except.ok (Json.obj [("type", Json.str "object")])
      ∧ pyStartsWith "#/$defs/A" "#/$defs/" = true
      ∧ lookupKey [("A", Json.num 5)] ((pySplitSlash "#/$defs/A").getLastD "")
          = some (Json.num 5))
    ∧ jsonHasKey (Json.obj [("type", Json.str "object")]) "$defs" = false
    ∧ resolveRef (Json.str "#/$defs/A") [("A", Json.num 5)]
        = Except.ok (Json.num 5) := by
  have hW : inline_pydantic_schema (Json.obj [("type", Json.str "object")])
      = Except.ok (Json.obj [("type", Json.str "object")]) := by
    simp [inline_pydantic_schema, defsOf, lookupKey, List.find?, dictErase,
      resolveDefinitions, resolveDefinitionsAux, processSchema, processEntries,
      pyContains, bind, Except.bind]
  refine ⟨⟨hW, by decide, rfl⟩, ?_, ?_⟩
  · exact inline_schema_no_defs_and_ref_resolution.1 _ _ hW
  · exact inline_schema_no_defs_and_ref_resolution.2.2.1 "#/$defs/A"
      [("A", Json.num 5)] (Json.num 5) (by decide) rfl

end Agno.Schema

